import Mathlib

/-!
Verification development for the FlatsRentTracker repository.

Shallow embedding of the extraction-and-reconciliation engine:
the per-unit diff engine `comparePrices` together with `hasUpdates`
(from the orchestrator module), and the pure cores of the three
extraction strategies of the scraper modules (structured-element
container scan, generic pattern scan, and page-wide price harvest)
together with the price text scanner `extractPrice`.

Modelling conventions:
- JS strings are `String`, nullable strings are `Option String`.
- Unit prices of stored snapshots are modelled as `Int` following the
  data model (price is an integer number of currency units); `parseInt`
  results in the scraper, which may be NaN, are modelled as `Option Int`
  with `none` standing for NaN.
- JS `Map` built by successive `set` calls (later insertions overwrite
  earlier ones) is modelled by `lookupBy`, which returns the last
  element of the list with the requested key.
- Regular-expression scans are hand-rolled scanners over `List Char`
  that follow the source regexes literally; each scanner documents the
  regex it implements.
-/

namespace FlatsRent

/-- A scraped rentable unit as stored in an observation snapshot.
Mirrors the objects pushed by the scraper: `unitNumber` and `floor`
are nullable strings, `availability` is a free-form tag. The price of
a stored unit is an integer per the data model. -/
structure Unit where
  unitNumber : Option String
  floor : Option String
  price : Int
  availability : String
deriving DecidableEq, Repr

/-- Price range of a plan snapshot, `{min, max}`. -/
structure PriceRange where
  min : Int
  max : Int
deriving DecidableEq, Repr

/-- A plan-level snapshot: `{name, url, units, totalUnits, priceRange}`
(the scrape metadata `scrapedAt`/`success`/`error` is transport-level
and not consumed by the diff engine). -/
structure Plan where
  name : String
  url : String
  units : List Unit
  totalUnits : Nat
  priceRange : Option PriceRange
deriving DecidableEq, Repr

/-- An observation snapshot: one scrape run, `{date, timestamp, plans}`. -/
structure Snapshot where
  date : String
  timestamp : String
  plans : List Plan
deriving DecidableEq, Repr

/-- Change classification statuses of the diff engine (closed set). -/
inductive ChangeStatus where
  | new
  | increased
  | decreased
  | unchanged
  | removed
deriving DecidableEq, Repr

/-- A per-unit change record as pushed into `unitChanges` by
`comparePrices`: `currentPrice` is null for removed units,
`previousPrice` is null for new units. -/
structure ChangeRecord where
  unitNumber : Option String
  floor : Option String
  currentPrice : Option Int
  previousPrice : Option Int
  difference : Int
  status : ChangeStatus
  availability : String
deriving DecidableEq, Repr

/-- A per-plan entry of the report produced by `comparePrices`. -/
structure PlanReport where
  planName : String
  url : String
  totalUnits : Nat
  priceRange : Option PriceRange
  units : List ChangeRecord
deriving DecidableEq, Repr

/-- The report produced by `comparePrices`: `{date, timestamp, plans}`. -/
structure Report where
  date : String
  timestamp : String
  plans : List PlanReport
deriving DecidableEq, Repr

/-- JS truthiness fallback for an optional string:
models `s || 'unknown'` (null, undefined and the empty string are
falsy, so all of them fall back). -/
def orUnknown (s : Option String) : String :=
  match s with
  | none => "unknown"
  | some v => if v = "" then "unknown" else v

/-- The composite identity key of a unit, as built at every use site of
the diff engine: the template
`${unit.unitNumber || 'unknown'}-${unit.floor || 'unknown'}`. -/
def unitKey (u : Unit) : String :=
  orUnknown u.unitNumber ++ "-" ++ orUnknown u.floor

/-- Lookup in a JS `Map` built by inserting every element of `l` under
key `f x` in order: `set` overwrites, so the lookup returns the last
element with the requested key. -/
def lookupBy (f : α → String) : List α → String → Option α
  | [], _ => none
  | x :: t, k =>
    match lookupBy f t k with
    | some y => some y
    | none => if f x = k then some x else none

/-- Classification of one current unit against the previous-unit map,
mirroring the body of the current-unit loop of `comparePrices`:
no previous unit under the key gives status `new` with null
`previousPrice` and difference 0; otherwise the difference
`currentUnit.price - previousPrice` is classified by sign. -/
def classifyUnit (previousUnits : List Unit) (cu : Unit) : ChangeRecord :=
  match lookupBy unitKey previousUnits (unitKey cu) with
  | none =>
      { unitNumber := cu.unitNumber, floor := cu.floor,
        currentPrice := some cu.price, previousPrice := none,
        difference := 0, status := ChangeStatus.new,
        availability := cu.availability }
  | some pu =>
      let d := cu.price - pu.price
      { unitNumber := cu.unitNumber, floor := cu.floor,
        currentPrice := some cu.price, previousPrice := some pu.price,
        difference := d,
        status :=
          if d < 0 then ChangeStatus.decreased
          else if d > 0 then ChangeStatus.increased
          else ChangeStatus.unchanged,
        availability := cu.availability }

/-- The synthetic record pushed for a previous unit with no current
counterpart: null `currentPrice`, difference 0, status `removed`,
availability the literal string used by the source. -/
def removedRecord (pu : Unit) : ChangeRecord :=
  { unitNumber := pu.unitNumber, floor := pu.floor,
    currentPrice := none, previousPrice := some pu.price,
    difference := 0, status := ChangeStatus.removed,
    availability := "No longer available" }

/-- The removed-unit pass of `comparePrices`: every previous unit whose
key is not in the set of current unit keys yields one synthetic
record, in the previous order. -/
def removedRecords (currentUnits previousUnits : List Unit) : List ChangeRecord :=
  (previousUnits.filter
    (fun pu => decide (unitKey pu ∉ currentUnits.map unitKey))).map removedRecord

/-- Per-plan record list of `comparePrices`: the classified current
units in their original order, followed by the removed records. -/
def compareUnits (currentUnits previousUnits : List Unit) : List ChangeRecord :=
  currentUnits.map (classifyUnit previousUnits) ++ removedRecords currentUnits previousUnits

/-- The previous-plan unit list used for one current plan: the map of
previous plans by name is consulted, and a missing previous plan (or
missing unit list) behaves as an empty unit list. -/
def prevUnitsFor (previousPlans : List Plan) (name : String) : List Unit :=
  match lookupBy Plan.name previousPlans name with
  | none => []
  | some pp => pp.units

/-- One plan entry of the report: metadata is copied from the current
plan (`totalUnits` included), the unit list is the per-plan diff. -/
def comparePlan (previousPlans : List Plan) (cp : Plan) : PlanReport :=
  { planName := cp.name, url := cp.url, totalUnits := cp.totalUnits,
    priceRange := cp.priceRange,
    units := compareUnits cp.units (prevUnitsFor previousPlans cp.name) }

/-- The diff engine `comparePrices(currentData, previousData)`:
per current plan, matched by plan name against the previous snapshot
(null previous data behaves as an empty plan list). -/
def comparePrices (currentData : Snapshot) (previousData : Option Snapshot) : Report :=
  let prevPlans :=
    match previousData with
    | none => []
    | some pd => pd.plans
  { date := currentData.date, timestamp := currentData.timestamp,
    plans := currentData.plans.map (comparePlan prevPlans) }

/-- The status disjunction tested by `hasUpdates`:
`new`, `removed`, `increased` or `decreased`. -/
def isUpdateStatus : ChangeStatus → Bool
  | ChangeStatus.new => true
  | ChangeStatus.removed => true
  | ChangeStatus.increased => true
  | ChangeStatus.decreased => true
  | ChangeStatus.unchanged => false

/-- `hasUpdates(report)`: flatten all plan record lists and test whether
some record has an update status. -/
def hasUpdates (r : Report) : Bool :=
  (r.plans.flatMap PlanReport.units).any (fun u => isUpdateStatus u.status)

/-- A unit as pushed by an extraction strategy of the scraper: the
price comes from `parseInt` and can be NaN, modelled as `none`
(the presentational `priceFormatted` field is omitted: it is derived
display text never read back). -/
structure ScrapedUnit where
  unitNumber : Option String
  floor : Option String
  price : Option Int
  availability : String
deriving DecidableEq, Repr

/-- JS `<` against a number, where the left side may be NaN:
every comparison against NaN is false. -/
def jsLtB (p : Option Int) (k : Int) : Bool :=
  match p with
  | some v => decide (v < k)
  | none => false

/-- JS `>` against a number, where the left side may be NaN. -/
def jsGtB (p : Option Int) (k : Int) : Bool :=
  match p with
  | some v => decide (v > k)
  | none => false

/-- The plausibility filter of the structured-element strategy:
a record survives `if (price < 1000 || price > 20000) continue`. -/
def inclBandB (p : Option Int) : Bool :=
  !(jsLtB p 1000 || jsGtB p 20000)

/-- The plausibility filter of the price-harvest strategy:
`p > 1000 && p < 20000`. -/
def strictBandB (p : Option Int) : Bool :=
  jsGtB p 1000 && jsLtB p 20000

/-- JS whitespace class of the source regexes. -/
def isWS (c : Char) : Bool := c.isWhitespace

/-- Digit-string value, the `parseInt(s, 10)` of a digit-only string;
computed in `Nat` and cast, so it is never negative. -/
def digitsVal (ds : List Char) : Int :=
  (ds.foldl (fun a c => a * 10 + (c.toNat - 48)) 0 : Nat)

/-- Case-insensitive literal match: the pattern is given in lower case,
and on success the rest of the input is returned. -/
def matchCI : List Char → List Char → Option (List Char)
  | [], l => some l
  | _ :: _, [] => none
  | p :: ps, c :: cs => if c.toLower = p then matchCI ps cs else none

/-- First match of the price scan of `extractPrice`, the regex
`\$[\d,]+`: at the first dollar sign followed by a nonempty run of
digits and commas, return that run (the engine retries at every later
index otherwise). -/
def scanDollarRun : List Char → Option (List Char)
  | [] => none
  | c :: rest =>
      if c = '$' then
        if (rest.takeWhile (fun x => x.isDigit || x = ',')).isEmpty then
          scanDollarRun rest
        else some (rest.takeWhile (fun x => x.isDigit || x = ','))
      else scanDollarRun rest

/-- Result of `extractPrice`: null, NaN, or a number. -/
inductive PriceResult where
  | nullVal
  | nanVal
  | intVal (n : Int)
deriving DecidableEq, Repr

/-- Whether an `extractPrice` result is an integer or absent (the shape
the specification promises). -/
def isNumericOrAbsent : PriceResult → Bool
  | PriceResult.nanVal => false
  | _ => true

/-- The price text scanner `extractPrice(text)` of the scraper module:
falsy input (null or the empty string) gives null; otherwise the first
match of `\$[\d,]+` is stripped of `$` and `,` and fed to `parseInt`,
which yields NaN when no digits remain; no match gives null. -/
def extractPrice (text : Option String) : PriceResult :=
  match text with
  | none => PriceResult.nullVal
  | some s =>
      if s = "" then PriceResult.nullVal
      else
        match scanDollarRun s.data with
        | none => PriceResult.nullVal
        | some run =>
            let ds := run.filter (fun c => c ≠ ',')
            if ds.isEmpty then PriceResult.nanVal
            else PriceResult.intVal (digitsVal ds)

/-- Suffix scan for `\s*\/\s*mo` (case-insensitive), returning the rest
after `mo`. Maximal whitespace munch is complete here because the
following literal characters are not whitespace. -/
def moSuffix (l : List Char) : Option (List Char) :=
  match l.dropWhile isWS with
  | '/' :: l2 =>
      (match (l2.dropWhile isWS) with
       | m :: o :: r => if m.toLower = 'm' && o.toLower = 'o' then some r else none
       | _ => none)
  | _ => none

/-- Candidate matches of the unit-identifier group
`(\d{3}-\d{3}|\d{3,4}[A-Z]?)` (case-insensitive, so the optional
letter is any letter), listed in regex backtracking order: the first
alternative, then the second with longest-first digit count and
with-letter before without. Each candidate carries the rest of the
input. -/
def idCandidates (l : List Char) : List (List Char × List Char) :=
  (match l with
   | a :: b :: c :: h :: d :: e :: f :: rest =>
       if a.isDigit && b.isDigit && c.isDigit && h = '-'
          && d.isDigit && e.isDigit && f.isDigit
       then [([a, b, c, h, d, e, f], rest)] else []
   | _ => []) ++
  (match l with
   | a :: b :: c :: rest =>
       if a.isDigit && b.isDigit && c.isDigit then
         (match rest with
          | d :: rest2 =>
              if d.isDigit then
                (match rest2 with
                 | e :: rest3 =>
                     if e.isAlpha then [([a, b, c, d, e], rest3), ([a, b, c, d], rest2)]
                     else [([a, b, c, d], rest2)]
                 | [] => [([a, b, c, d], [])]) ++ [([a, b, c], rest)]
              else if d.isAlpha then [([a, b, c, d], rest2), ([a, b, c], rest)]
              else [([a, b, c], rest)]
          | [] => [([a, b, c], [])])
       else []
   | _ => [])

/-- Match of `unit\s+` (case-insensitive) at the head of the input,
returning the rest after the whitespace. The identifier group starts
with a digit, so maximal whitespace munch is complete. -/
def unitMarker (l : List Char) : Option (List Char) :=
  match matchCI ['u', 'n', 'i', 't'] l with
  | none => none
  | some r =>
      let ws := r.takeWhile isWS
      if ws.isEmpty then none else some (r.drop ws.length)

/-- First match of the structured-strategy identifier regex
`Unit\s+(\d{3}-\d{3}|\d{3,4}[A-Z]?)` (case-insensitive), returning the
captured group. With nothing after the group, the first candidate at
the first matching index wins. -/
def findUnitId : List Char → Option (List Char)
  | [] => none
  | c :: t =>
      match
        (match unitMarker (c :: t) with
         | none => none
         | some r =>
             match idCandidates r with
             | [] => none
             | (id, _) :: _ => some id)
      with
      | some id => some id
      | none => findUnitId t

/-- Parse of the structured-strategy price match: the source strips
`[$,\/mo]` (case-insensitive) from the whole match and trims, leaving
exactly the digits of the run; a run of separators only leaves the
empty string, hence NaN. -/
def priceFromRun (run : List Char) : Option Int :=
  let ds := run.filter (fun c => c ≠ ',')
  if ds.isEmpty then none else some (digitsVal ds)

/-- First match of the structured-strategy price regex
`\$[\d,]+\s*\/\s*mo` (case-insensitive), returning the parsed price.
Backtracking the greedy run never helps: a shortened run is followed
by a digit or comma, which cannot start `\s*\/`. -/
def findPriceMo : List Char → Option (Option Int)
  | [] => none
  | '$' :: rest =>
      let run := rest.takeWhile (fun c => c.isDigit || c = ',')
      if run.isEmpty then findPriceMo rest
      else
        (match moSuffix (rest.drop run.length) with
         | some _ => some (priceFromRun run)
         | none => findPriceMo rest)
  | _ :: rest => findPriceMo rest

/-- Test of `/Avail\.\s*Now|Available\s*Now|Immediate/i` at one
position. -/
def availNowAt (l : List Char) : Bool :=
  (match matchCI ['a', 'v', 'a', 'i', 'l', '.'] l with
   | some r => (matchCI ['n', 'o', 'w'] (r.dropWhile isWS)).isSome
   | none => false) ||
  (match matchCI ['a', 'v', 'a', 'i', 'l', 'a', 'b', 'l', 'e'] l with
   | some r => (matchCI ['n', 'o', 'w'] (r.dropWhile isWS)).isSome
   | none => false) ||
  (matchCI ['i', 'm', 'm', 'e', 'd', 'i', 'a', 't', 'e'] l).isSome

/-- Whole-text test of `/Avail\.\s*Now|Available\s*Now|Immediate/i`. -/
def availNowTest : List Char → Bool
  | [] => false
  | c :: t => availNowAt (c :: t) || availNowTest t

/-- Date separator class `[\/\-]`. -/
def sepOK (c : Char) : Bool := c = '/' || c = '-'

/-- Match of `\d{1,2}` followed by a separator, in backtracking order
(two digits first), returning the consumed prefix (separator included)
and the rest. -/
def digits12Sep (l : List Char) : Option (List Char × List Char) :=
  match l with
  | a :: b :: c :: r =>
      if a.isDigit then
        if b.isDigit then
          if sepOK c then some ([a, b, c], r) else none
        else if sepOK b then some ([a, b], c :: r)
        else none
      else none
  | [a, b] => if a.isDigit && sepOK b then some ([a, b], []) else none
  | _ => none

/-- Match of the trailing `\d{2,4}` of the date group: greedy up to
four digits, at least two; nothing follows the group, so no backtrack
is needed. -/
def digits24 (l : List Char) : Option (List Char) :=
  let ds := l.takeWhile Char.isDigit
  if 2 ≤ ds.length then some (ds.take 4) else none

/-- Match of the date group `\d{1,2}[\/\-]\d{1,2}[\/\-]\d{2,4}` at one
position, returning the matched text. -/
def dateAt (l : List Char) : Option (List Char) :=
  (digits12Sep l).bind fun p1 =>
    (digits12Sep p1.2).bind fun p2 =>
      (digits24 p2.2).map fun p3 => p1.1 ++ p2.1 ++ p3

/-- First match of
`/Avail\.\s*(\d{1,2}[\/\-]\d{1,2}[\/\-]\d{2,4})/i`, returning the
captured date. -/
def availDateScan : List Char → Option (List Char)
  | [] => none
  | c :: t =>
      match
        (matchCI ['a', 'v', 'a', 'i', 'l', '.'] (c :: t)).bind
          (fun r => dateAt (r.dropWhile isWS))
      with
      | some d => some d
      | none => availDateScan t

/-- Availability extraction of the structured-element strategy:
an explicit now marker wins, else the first availability date, else
the literal `Unknown`. -/
def availabilityOf (l : List Char) : String :=
  if availNowTest l then "Available Now"
  else
    match availDateScan l with
    | some d => String.mk d
    | none => "Unknown"

/-- Floor derivation `unitNumber.match(/^(\d)/)`: the leading character
when it is a digit. -/
def idFloor (id : List Char) : Option String :=
  match id with
  | c :: _ => if c.isDigit then some (String.mk [c]) else none
  | [] => none

/-- One container of the structured-element strategy: the container
text must yield a unit identifier and a monthly price, and the price
must survive the plausibility filter (a NaN price survives, since both
comparisons against NaN are false). -/
def unitFromContainer (t : String) : Option ScrapedUnit :=
  match findUnitId t.data with
  | none => none
  | some id =>
      match findPriceMo t.data with
      | none => none
      | some price =>
          if inclBandB price then
            some { unitNumber := some (String.mk id), floor := idFloor id,
                   price := price, availability := availabilityOf t.data }
          else none

/-- The structured-element strategy over the texts of the located unit
containers (the DOM query itself is the render capability, outside the
core): one record per container that parses and passes the filter. -/
def structuredExtract (containers : List String) : List ScrapedUnit :=
  containers.filterMap unitFromContainer

/-- Three digits followed by the monthly-rent suffix, closing the
pattern-scan price group `\d{1,2},?\d{3}` with suffix `\s*\/\s*mo`;
`pre` holds the digits already matched before the optional comma. -/
def tryThreeDigits (pre : List Char) (l : List Char) : Option (Int × List Char) :=
  match l with
  | e :: f :: g :: r =>
      if e.isDigit && f.isDigit && g.isDigit then
        (moSuffix r).map (fun rest => (digitsVal (pre ++ [e, f, g]), rest))
      else none
  | _ => none

/-- The optional thousands comma `,?` of the pattern-scan price group,
greedy: with the comma first, then without. -/
def afterLead (pre : List Char) (l : List Char) : Option (Int × List Char) :=
  match l with
  | ',' :: r =>
      (match tryThreeDigits pre r with
       | some v => some v
       | none => tryThreeDigits pre l)
  | _ => tryThreeDigits pre l

/-- Match of `\$(\d{1,2},?\d{3})\s*\/\s*mo` at one position, returning
the parsed group (commas stripped, so always a number) and the rest:
the leading `\d{1,2}` is greedy, two digits before one. -/
def tryPriceMo (l : List Char) : Option (Int × List Char) :=
  match l with
  | '$' :: a :: r =>
      if a.isDigit then
        match r with
        | b :: r2 =>
            if b.isDigit then
              (match afterLead [a, b] r2 with
               | some v => some v
               | none => afterLead [a] (b :: r2))
            else afterLead [a] (b :: r2)
        | [] => none
      else none
  | _ => none

/-- The lazy bounded gap `[\s\S]{0,500}?` before the price: positions
are tried nearest-first, `fuel` counts the remaining positions after
the current one (501 positions in all for a 500-character gap). -/
def gapScan : Nat → List Char → Option (Int × List Char)
  | 0, l => tryPriceMo l
  | n + 1, l =>
      match tryPriceMo l with
      | some v => some v
      | none =>
          match l with
          | [] => none
          | _ :: t => gapScan n t

/-- First success over a candidate list, in order. -/
def firstSome (cs : List (List Char × List Char))
    (f : List Char × List Char → Option β) : Option β :=
  match cs with
  | [] => none
  | c :: t =>
      match f c with
      | some v => some v
      | none => firstSome t f

/-- Match of the whole pattern-scan regex
`Unit\s+(\d{3}-\d{3}|\d{3,4}[A-Z]?)[\s\S]{0,500}?\$(\d{1,2},?\d{3})\s*\/\s*mo`
at one position: identifier candidates in backtracking order, each
given the bounded lazy gap scan; on success the identifier, the price
and the rest after the match are returned. -/
def tryUnitPriceAt (l : List Char) : Option (List Char × Int × List Char) :=
  match unitMarker l with
  | none => none
  | some r =>
      firstSome (idCandidates r) (fun c =>
        (gapScan 500 c.2).map (fun v => (c.1, v.1, v.2)))

/-- The global exec loop of the pattern scan: successive non-overlapping
matches, each search resuming after the previous match; the fuel is the
input length, which suffices since every step consumes at least one
character. -/
def scanPatternF : Nat → List Char → List (List Char × Int)
  | 0, _ => []
  | n + 1, l =>
      match l with
      | [] => []
      | _ :: t =>
          match tryUnitPriceAt l with
          | some (id, p, rest) => (id, p) :: scanPatternF n rest
          | none => scanPatternF n t

/-- The push loop of the pattern-scan strategy: a match is kept when its
price lies in the inclusive plausible band and no already-pushed unit
has the same unit number (deduplication is by the bare unit number). -/
def pushScan : List (List Char × Int) → List ScrapedUnit → List ScrapedUnit
  | [], acc => acc
  | (id, p) :: t, acc =>
      if 1000 ≤ p ∧ p ≤ 20000 then
        if acc.any (fun u => decide (u.unitNumber = some (String.mk id))) then
          pushScan t acc
        else
          pushScan t (acc ++ [{ unitNumber := some (String.mk id),
                                floor := idFloor id, price := some p,
                                availability := "Call for Details" }])
      else pushScan t acc

/-- The pattern-scan strategy over the page body text. -/
def patternScan (body : String) : List ScrapedUnit :=
  pushScan (scanPatternF body.data.length body.data) []

/-- All matches of the global price scan `\$[\d,]+`: each match is the
run after the dollar sign, and the search resumes after the match. -/
def scanDollarAllF : Nat → List Char → List (List Char)
  | 0, _ => []
  | n + 1, l =>
      match l with
      | [] => []
      | '$' :: r =>
          let run := r.takeWhile (fun c => c.isDigit || c = ',')
          if run.isEmpty then scanDollarAllF n r
          else run :: scanDollarAllF n (r.drop run.length)
      | _ :: t => scanDollarAllF n t

/-- First-occurrence deduplication of the match strings, the behavior
of spreading a JS `Set` (insertion order preserved); dropping the
dollar sign before comparison is harmless since every match carries
it. -/
def dedupAux : List (List Char) → List (List Char) → List (List Char)
  | [], _ => []
  | x :: t, seen =>
      if x ∈ seen then dedupAux t seen else x :: dedupAux t (x :: seen)

/-- Ascending insertion for the numeric sort `(a, b) => a - b`. -/
def insertAsc (x : Int) : List Int → List Int
  | [] => [x]
  | y :: t => if x ≤ y then x :: y :: t else y :: insertAsc x t

/-- Ascending sort of the valid prices. -/
def sortAsc (l : List Int) : List Int :=
  l.foldr insertAsc []

/-- The synthesis loop of the price-harvest strategy: one placeholder
unit per kept price, labelled `Unit ${index + 1}`, no floor,
`Call for Details` availability. -/
def labelUnits : Nat → List Int → List ScrapedUnit
  | _, [] => []
  | i, p :: t =>
      { unitNumber := some ("Unit " ++ toString (i + 1)), floor := none,
        price := some p, availability := "Call for Details" } :: labelUnits (i + 1) t

/-- The price-harvest strategy over the page body text: collect every
`\$[\d,]+` match, deduplicate the match strings, parse (NaN when the
run has no digit), keep the strictly plausible ones, sort ascending
and synthesize placeholder units. -/
def priceHarvest (body : String) : List ScrapedUnit :=
  let uniq := dedupAux (scanDollarAllF body.data.length body.data) []
  let valid := uniq.filterMap (fun run =>
    match priceFromRun run with
    | some p => if 1000 < p ∧ p < 20000 then some p else none
    | none => none)
  labelUnits 0 (sortAsc valid)

/-- The success-path plan snapshot built by `scrapePlan` from the
extracted units: `totalUnits` is the unit count and the price range is
the minimum and maximum unit price, absent when no units were found
(prices of stored snapshots are integers, see the module comment). -/
def mkPlanSnapshot (name url : String) (units : List Unit) : Plan :=
  { name := name, url := url, units := units,
    totalUnits := units.length,
    priceRange :=
      match units.map Unit.price with
      | [] => none
      | p :: ps => some { min := ps.foldl min p, max := ps.foldl max p } }

/-- Default unit used only as the fallback of total list indexing. -/
def defUnit : Unit :=
  { unitNumber := none, floor := none, price := 0, availability := "" }

/-- Default change record used only as the fallback of total list
indexing. -/
def defRec : ChangeRecord :=
  { unitNumber := none, floor := none, currentPrice := none,
    previousPrice := none, difference := 0,
    status := ChangeStatus.unchanged, availability := "" }

/-- Default plan used only as the fallback of total list indexing. -/
def defPlan : Plan :=
  { name := "", url := "", units := [], totalUnits := 0, priceRange := none }

/-- Default plan report used only as the fallback of total list
indexing. -/
def defPlanReport : PlanReport :=
  { planName := "", url := "", totalUnits := 0, priceRange := none, units := [] }

/-- Concrete unit used by the example snapshots below. -/
def uEx : Unit :=
  { unitNumber := some "350", floor := some "3", price := 5000, availability := "Now" }

/-- Snapshot with two plans sharing the name `A` (the scraper can
produce duplicate plan names, since the displayed plan name is scraped
from the page): the first holds one unit, the second none. -/
def snapDupName : Snapshot :=
  { date := "d", timestamp := "t",
    plans :=
      [{ name := "A", url := "u", units := [uEx], totalUnits := 1, priceRange := none },
       { name := "A", url := "u", units := [], totalUnits := 0, priceRange := none }] }

/-- Current snapshot with one empty plan `A`. -/
def snapCurEmpty : Snapshot :=
  { date := "d", timestamp := "t",
    plans :=
      [{ name := "A", url := "u", units := [], totalUnits := 0, priceRange := none }] }

/-- Previous snapshot with one plan `A` holding one unit. -/
def snapPrevOne : Snapshot :=
  { date := "d", timestamp := "t",
    plans :=
      [{ name := "A", url := "u", units := [uEx], totalUnits := 1, priceRange := none }] }

/-- Concrete current unit used to instantiate hypotheses. -/
def uCur : Unit :=
  { unitNumber := some "201-3", floor := some "2", price := 4900,
    availability := "Now" }

/-- Concrete previous unit with the same key as `uCur` and a higher
price. -/
def uPrev : Unit :=
  { unitNumber := some "201-3", floor := some "2", price := 5000,
    availability := "Now" }

/-- Well-formed snapshot with distinct plan names and distinct unit
keys, used to instantiate hypotheses. -/
def snapOK : Snapshot :=
  { date := "d", timestamp := "t",
    plans :=
      [{ name := "Plan B", url := "u", units := [uEx], totalUnits := 1, priceRange := none }] }

/-! Helper lemmas about the map model and the diff engine. -/

theorem lookupBy_eq_none {f : α → String} {l : List α} {k : String} :
    lookupBy f l k = none ↔ ∀ x ∈ l, f x ≠ k := by
  induction l with
  | nil => simp [lookupBy]
  | cons a t ih =>
      simp only [lookupBy]
      cases h : lookupBy f t k with
      | some y =>
          simp only [h]
          constructor
          · intro hc; exact (Option.some_ne_none y hc).elim
          · intro hall
            have h0 : lookupBy f t k = none :=
              ih.mpr (fun x hx => hall x (List.mem_cons_of_mem _ hx))
            rw [h] at h0; exact (Option.some_ne_none y h0).elim
      | none =>
          simp only [h]
          have ht := ih.mp h
          constructor
          · intro hc x hx
            rcases List.mem_cons.mp hx with rfl | hx'
            · intro hk
              rw [if_pos hk] at hc
              exact Option.some_ne_none _ hc
            · exact ht x hx'
          · intro hall
            rw [if_neg (hall a (List.mem_cons_self a t))]

theorem lookupBy_self {f : α → String} {l : List α} {x : α}
    (hn : (l.map f).Nodup) (hx : x ∈ l) : lookupBy f l (f x) = some x := by
  induction l with
  | nil => cases hx
  | cons a t ih =>
      rw [List.map_cons, List.nodup_cons] at hn
      rcases List.mem_cons.mp hx with rfl | hx'
      · have hnone : lookupBy f t (f x) = none := by
          refine lookupBy_eq_none.mpr (fun y hy hk => hn.1 ?_)
          rw [← hk]; exact List.mem_map_of_mem f hy
        simp [lookupBy, hnone]
      · have := ih hn.2 hx'
        simp [lookupBy, this]

theorem classifyUnit_status_ne_removed (p : List Unit) (cu : Unit) :
    (classifyUnit p cu).status ≠ ChangeStatus.removed := by
  unfold classifyUnit
  cases lookupBy unitKey p (unitKey cu) with
  | none => simp
  | some pu => simp only []; split_ifs <;> simp

theorem classifyUnit_new_iff (p : List Unit) (cu : Unit) :
    (classifyUnit p cu).status = ChangeStatus.new ↔
      lookupBy unitKey p (unitKey cu) = none := by
  unfold classifyUnit
  cases lookupBy unitKey p (unitKey cu) with
  | none => simp
  | some pu => simp only []; split_ifs <;> simp

theorem compareUnits_getD_lt {c p : List Unit} {i : Nat} (hi : i < c.length) :
    (compareUnits c p).getD i defRec = classifyUnit p (c.getD i defUnit) := by
  unfold compareUnits
  rw [List.getD_eq_getElem?_getD, List.getElem?_append_left (by simpa using hi),
    List.getElem?_map, List.getElem?_eq_getElem hi]
  simp [List.getD_eq_getElem?_getD, List.getElem?_eq_getElem hi]

theorem status_matched_eq_not_new {s : ChangeStatus} (h : s ≠ ChangeStatus.removed) :
    decide (s = ChangeStatus.increased ∨ s = ChangeStatus.decreased ∨
      s = ChangeStatus.unchanged) = !decide (s = ChangeStatus.new) := by
  cases s <;> simp at h ⊢

theorem countP_add_countP_of_not {l : List α} {p q : α → Bool}
    (h : ∀ x ∈ l, p x = !q x) : l.countP p + l.countP q = l.length := by
  induction l with
  | nil => simp
  | cons a t ih =>
      rw [List.countP_cons, List.countP_cons]
      have ha := h a (List.mem_cons_self a t)
      have ht := ih (fun x hx => h x (List.mem_cons_of_mem _ hx))
      cases hq : q a <;> rw [hq] at ha <;> simp [ha, hq] <;> omega

theorem compareUnits_counts (c p : List Unit) :
    (compareUnits c p).countP
        (fun r => decide (¬ r.status = ChangeStatus.removed)) = c.length ∧
    (compareUnits c p).countP (fun r => decide (r.status = ChangeStatus.removed)) =
      (p.filter (fun pu => decide (unitKey pu ∉ c.map unitKey))).length ∧
    (compareUnits c p).length =
      c.length + (p.filter (fun pu => decide (unitKey pu ∉ c.map unitKey))).length := by
  unfold compareUnits removedRecords
  refine ⟨?_, ?_, by simp⟩
  · rw [List.countP_append, List.countP_map, List.countP_map]
    have h1 : List.countP
        ((fun r => decide (¬ r.status = ChangeStatus.removed)) ∘ classifyUnit p) c
        = c.length := by
      refine List.countP_eq_length.mpr (fun x _ => ?_)
      simp [classifyUnit_status_ne_removed]
    have h2 : List.countP
        ((fun r => decide (¬ r.status = ChangeStatus.removed)) ∘ removedRecord)
        (p.filter (fun pu => decide (unitKey pu ∉ c.map unitKey))) = 0 := by
      refine List.countP_eq_zero.mpr (fun x _ => ?_)
      simp [removedRecord]
    rw [h1, h2]
    omega
  · rw [List.countP_append, List.countP_map, List.countP_map]
    have h1 : List.countP
        ((fun r => decide (r.status = ChangeStatus.removed)) ∘ classifyUnit p) c = 0 := by
      refine List.countP_eq_zero.mpr (fun x _ => ?_)
      simp [classifyUnit_status_ne_removed]
    have h2 : List.countP
        ((fun r => decide (r.status = ChangeStatus.removed)) ∘ removedRecord)
        (p.filter (fun pu => decide (unitKey pu ∉ c.map unitKey)))
        = (p.filter (fun pu => decide (unitKey pu ∉ c.map unitKey))).length := by
      refine List.countP_eq_length.mpr (fun x _ => ?_)
      simp [removedRecord]
    rw [h1, h2]
    omega


theorem getD_map_of_lt {l : List α} {f : α → β} {j : Nat} (hj : j < l.length)
    (d : β) (d' : α) : (l.map f).getD j d = f (l.getD j d') := by
  rw [List.getD_eq_getElem?_getD, List.getD_eq_getElem?_getD, List.getElem?_map,
    List.getElem?_eq_getElem hj]
  simp

/-! Claim theorems. -/

/-- C1: for every current unit of the per-plan reconciliation, a key
absent from the previous-unit map yields status `new` with absent
previous price and difference 0; a present key yields
`difference = currentPrice - previousPrice`, classified `decreased`
when negative, `increased` when positive and `unchanged` when zero. -/
theorem compareUnits_current_classification (c p : List Unit) (i : Nat)
    (hi : i < c.length) :
    ((∀ pu ∈ p, unitKey pu ≠ unitKey (c.getD i defUnit)) →
      ((compareUnits c p).getD i defRec).status = ChangeStatus.new ∧
      ((compareUnits c p).getD i defRec).previousPrice = none ∧
      ((compareUnits c p).getD i defRec).difference = 0) ∧
    (∀ pu, lookupBy unitKey p (unitKey (c.getD i defUnit)) = some pu →
      ((compareUnits c p).getD i defRec).previousPrice = some pu.price ∧
      ((compareUnits c p).getD i defRec).difference =
        (c.getD i defUnit).price - pu.price ∧
      ((c.getD i defUnit).price - pu.price < 0 →
        ((compareUnits c p).getD i defRec).status = ChangeStatus.decreased) ∧
      ((c.getD i defUnit).price - pu.price > 0 →
        ((compareUnits c p).getD i defRec).status = ChangeStatus.increased) ∧
      ((c.getD i defUnit).price - pu.price = 0 →
        ((compareUnits c p).getD i defRec).status = ChangeStatus.unchanged)) := by
  rw [compareUnits_getD_lt hi]
  constructor
  · intro hall
    have hn : lookupBy unitKey p (unitKey (c.getD i defUnit)) = none :=
      lookupBy_eq_none.mpr hall
    simp only [classifyUnit, hn]
    exact ⟨trivial, trivial, trivial⟩
  · intro pu hpu
    simp only [classifyUnit, hpu]
    refine ⟨trivial, trivial, ?_, ?_, ?_⟩ <;> intro h <;> split_ifs <;>
      first | rfl | omega

/-- Witness for C1 at a concrete matched pair with a price decrease. -/
theorem compareUnits_current_classification_witness :
    0 < ([uCur] : List Unit).length ∧
    (∀ pu, lookupBy unitKey [uPrev] (unitKey (([uCur] : List Unit).getD 0 defUnit))
        = some pu →
      ((compareUnits [uCur] [uPrev]).getD 0 defRec).previousPrice = some pu.price ∧
      ((compareUnits [uCur] [uPrev]).getD 0 defRec).difference =
        (([uCur] : List Unit).getD 0 defUnit).price - pu.price ∧
      ((([uCur] : List Unit).getD 0 defUnit).price - pu.price < 0 →
        ((compareUnits [uCur] [uPrev]).getD 0 defRec).status = ChangeStatus.decreased) ∧
      ((([uCur] : List Unit).getD 0 defUnit).price - pu.price > 0 →
        ((compareUnits [uCur] [uPrev]).getD 0 defRec).status = ChangeStatus.increased) ∧
      ((([uCur] : List Unit).getD 0 defUnit).price - pu.price = 0 →
        ((compareUnits [uCur] [uPrev]).getD 0 defRec).status = ChangeStatus.unchanged)) :=
  ⟨by decide, (compareUnits_current_classification [uCur] [uPrev] 0 (by decide)).2⟩

/-- C2: the removed records of the per-plan reconciliation are exactly
one synthetic record per previous unit whose key has no counterpart
among the current units, with absent current price, the previous price
of that unit, difference 0, status `removed` and availability
`No longer available`. -/
theorem compareUnits_removed_records (c p : List Unit) :
    (compareUnits c p).filter (fun r => decide (r.status = ChangeStatus.removed)) =
      (p.filter (fun pu => decide (unitKey pu ∉ c.map unitKey))).map
        (fun pu =>
          { unitNumber := pu.unitNumber, floor := pu.floor, currentPrice := none,
            previousPrice := some pu.price, difference := 0,
            status := ChangeStatus.removed,
            availability := "No longer available" }) := by
  unfold compareUnits removedRecords
  rw [List.filter_append]
  have h1 : (c.map (classifyUnit p)).filter
      (fun r => decide (r.status = ChangeStatus.removed)) = [] := by
    refine List.filter_eq_nil_iff.mpr (fun r hr => ?_)
    rcases List.mem_map.mp hr with ⟨cu, _, rfl⟩
    simp [classifyUnit_status_ne_removed]
  have h2 : ((p.filter (fun pu => decide (unitKey pu ∉ c.map unitKey))).map
      removedRecord).filter (fun r => decide (r.status = ChangeStatus.removed)) =
      (p.filter (fun pu => decide (unitKey pu ∉ c.map unitKey))).map removedRecord := by
    refine List.filter_eq_self.mpr (fun r hr => ?_)
    rcases List.mem_map.mp hr with ⟨pu, _, rfl⟩
    simp [removedRecord]
  rw [h1, h2, List.nil_append]
  rfl

/-- C9: the per-plan record list is the classified current units in
their original order followed by the removed records in their original
previous order. -/
theorem compareUnits_order (c p : List Unit) :
    (compareUnits c p).take c.length = c.map (classifyUnit p) ∧
    (compareUnits c p).drop c.length =
      (p.filter (fun pu => decide (unitKey pu ∉ c.map unitKey))).map removedRecord := by
  unfold compareUnits removedRecords
  exact ⟨List.take_left' (by simp), List.drop_left' (by simp)⟩

/-- C3 counterexample: on the snapshot with two plans named `A`, the
plan-name map keeps only the later plan, so reconciling the snapshot
against itself classifies the unit of the earlier plan as `new`: not
every record is `unchanged`. -/
theorem comparePrices_self_not_all_unchanged :
    ¬ (∀ p ∈ (comparePrices snapDupName (some snapDupName)).plans,
        ∀ r ∈ p.units,
          r.status = ChangeStatus.unchanged ∧ r.difference = 0) := by
  decide

/-- C3 amended: reconciling a snapshot against itself yields only
`unchanged` records with difference 0, provided the plan names are
pairwise distinct and the identity keys within each plan are pairwise
distinct (the data-model invariant); with duplicate plan names or
duplicate keys the last-wins maps can misclassify, see the
counterexample. -/
theorem comparePrices_self_unchanged_of_nodup (s : Snapshot)
    (hnames : (s.plans.map Plan.name).Nodup)
    (hkeys : ∀ p ∈ s.plans, (p.units.map unitKey).Nodup) :
    ∀ rp ∈ (comparePrices s (some s)).plans, ∀ r ∈ rp.units,
      r.status = ChangeStatus.unchanged ∧ r.difference = 0 := by
  intro rp hrp r hr
  simp only [comparePrices, List.mem_map] at hrp
  obtain ⟨cp, hcp, rfl⟩ := hrp
  have hp : prevUnitsFor s.plans cp.name = cp.units := by
    unfold prevUnitsFor
    rw [lookupBy_self hnames hcp]
  simp only [comparePlan, hp, compareUnits] at hr
  rcases List.mem_append.mp hr with hr1 | hr2
  · rcases List.mem_map.mp hr1 with ⟨cu, hcu, rfl⟩
    have hl : lookupBy unitKey cp.units (unitKey cu) = some cu :=
      lookupBy_self (hkeys cp hcp) hcu
    simp [classifyUnit, hl]
  · exfalso
    unfold removedRecords at hr2
    rcases List.mem_map.mp hr2 with ⟨pu, hpu, _⟩
    have := (List.mem_filter.mp hpu).2
    simp only [decide_eq_true_eq] at this
    exact this (List.mem_map_of_mem unitKey (List.mem_filter.mp hpu).1)

/-- Witness for the amended C3 at a well-formed concrete snapshot. -/
theorem comparePrices_self_unchanged_of_nodup_witness :
    ((snapOK.plans.map Plan.name).Nodup ∧
      ∀ p ∈ snapOK.plans, (p.units.map unitKey).Nodup) ∧
    (∀ rp ∈ (comparePrices snapOK (some snapOK)).plans, ∀ r ∈ rp.units,
      r.status = ChangeStatus.unchanged ∧ r.difference = 0) :=
  ⟨⟨by decide, by decide⟩,
    comparePrices_self_unchanged_of_nodup snapOK (by decide) (by decide)⟩

/-- C4 counterexample: with a current empty plan `A` and a previous
plan `A` holding one unit, the report has one removed record, no
matched record and no new record, so
`|current.units| + |removed| - |new| = 0 + 1 - 0 = 1` is not the
matched-record count 0. -/
theorem conservation_equation_fails :
    ¬ ((snapCurEmpty.plans.getD 0 defPlan).units.length +
        ((comparePrices snapCurEmpty (some snapPrevOne)).plans.getD 0
            defPlanReport).units.countP
          (fun r => decide (r.status = ChangeStatus.removed)) =
       ((comparePrices snapCurEmpty (some snapPrevOne)).plans.getD 0
            defPlanReport).units.countP
          (fun r => decide (r.status = ChangeStatus.increased ∨
            r.status = ChangeStatus.decreased ∨
            r.status = ChangeStatus.unchanged)) +
       ((comparePrices snapCurEmpty (some snapPrevOne)).plans.getD 0
            defPlanReport).units.countP
          (fun r => decide (r.status = ChangeStatus.new))) := by
  decide

/-- C4 amended: per plan of the report,
`|current.units| = |matched-pair records| + |new records|` (every
current unit is accounted for as matched or new), and the removed
records count exactly the previous units whose key has no counterpart
among the current units; the removed term of the original equation
does not belong on the left side. -/
theorem conservation_amended (cur prev : Snapshot) (j : Nat)
    (hj : j < cur.plans.length) :
    (cur.plans.getD j defPlan).units.length =
      ((comparePrices cur (some prev)).plans.getD j defPlanReport).units.countP
        (fun r => decide (r.status = ChangeStatus.increased ∨
          r.status = ChangeStatus.decreased ∨
          r.status = ChangeStatus.unchanged)) +
      ((comparePrices cur (some prev)).plans.getD j defPlanReport).units.countP
        (fun r => decide (r.status = ChangeStatus.new)) ∧
    ((comparePrices cur (some prev)).plans.getD j defPlanReport).units.countP
        (fun r => decide (r.status = ChangeStatus.removed)) =
      ((prevUnitsFor prev.plans (cur.plans.getD j defPlan).name).filter
        (fun pu => decide (unitKey pu ∉
          (cur.plans.getD j defPlan).units.map unitKey))).length := by
  have hrp : (comparePrices cur (some prev)).plans.getD j defPlanReport =
      comparePlan prev.plans (cur.plans.getD j defPlan) := by
    simp only [comparePrices]
    exact getD_map_of_lt hj defPlanReport defPlan
  rw [hrp]
  simp only [comparePlan]
  constructor
  · rw [compareUnits, removedRecords]
    rw [List.countP_append, List.countP_append, List.countP_map, List.countP_map,
      List.countP_map, List.countP_map]
    have hmr : List.countP
        ((fun r => decide (r.status = ChangeStatus.increased ∨
          r.status = ChangeStatus.decreased ∨
          r.status = ChangeStatus.unchanged)) ∘ removedRecord)
        ((prevUnitsFor prev.plans (cur.plans.getD j defPlan).name).filter
          (fun pu => decide (unitKey pu ∉
            (cur.plans.getD j defPlan).units.map unitKey))) = 0 :=
      List.countP_eq_zero.mpr (fun x _ => by simp [removedRecord])
    have hnr : List.countP
        ((fun r => decide (r.status = ChangeStatus.new)) ∘ removedRecord)
        ((prevUnitsFor prev.plans (cur.plans.getD j defPlan).name).filter
          (fun pu => decide (unitKey pu ∉
            (cur.plans.getD j defPlan).units.map unitKey))) = 0 :=
      List.countP_eq_zero.mpr (fun x _ => by simp [removedRecord])
    rw [hmr, hnr]
    have hpart := countP_add_countP_of_not
      (l := (cur.plans.getD j defPlan).units)
      (p := (fun (r : ChangeRecord) => decide (r.status = ChangeStatus.increased ∨
        r.status = ChangeStatus.decreased ∨
        r.status = ChangeStatus.unchanged)) ∘ classifyUnit
          (prevUnitsFor prev.plans (cur.plans.getD j defPlan).name))
      (q := (fun (r : ChangeRecord) => decide (r.status = ChangeStatus.new)) ∘ classifyUnit
          (prevUnitsFor prev.plans (cur.plans.getD j defPlan).name))
      (fun x _ => status_matched_eq_not_new (classifyUnit_status_ne_removed _ _))
    omega
  · exact (compareUnits_counts _ _).2.1

/-- Witness for the amended C4 at the concrete removed-unit scenario. -/
theorem conservation_amended_witness :
    0 < snapCurEmpty.plans.length ∧
    ((snapCurEmpty.plans.getD 0 defPlan).units.length =
      ((comparePrices snapCurEmpty (some snapPrevOne)).plans.getD 0
          defPlanReport).units.countP
        (fun r => decide (r.status = ChangeStatus.increased ∨
          r.status = ChangeStatus.decreased ∨
          r.status = ChangeStatus.unchanged)) +
      ((comparePrices snapCurEmpty (some snapPrevOne)).plans.getD 0
          defPlanReport).units.countP
        (fun r => decide (r.status = ChangeStatus.new)) ∧
    ((comparePrices snapCurEmpty (some snapPrevOne)).plans.getD 0
        defPlanReport).units.countP
        (fun r => decide (r.status = ChangeStatus.removed)) =
      ((prevUnitsFor snapPrevOne.plans (snapCurEmpty.plans.getD 0 defPlan).name).filter
        (fun pu => decide (unitKey pu ∉
          (snapCurEmpty.plans.getD 0 defPlan).units.map unitKey))).length) :=
  ⟨by decide, conservation_amended snapCurEmpty snapPrevOne 0 (by decide)⟩

/-- The update-status test agrees with the four-way disjunction of the
source. -/
theorem isUpdateStatus_eq_true_iff (s : ChangeStatus) :
    isUpdateStatus s = true ↔
      (s = ChangeStatus.new ∨ s = ChangeStatus.removed ∨
       s = ChangeStatus.increased ∨ s = ChangeStatus.decreased) := by
  cases s <;> simp [isUpdateStatus]

/-- C5: `hasUpdates` is true exactly when some record across all plans
has status `new`, `removed`, `increased` or `decreased`; a report with
only `unchanged` records, or with no records, yields false. -/
theorem hasUpdates_iff (r : Report) :
    hasUpdates r = true ↔
      ∃ p ∈ r.plans, ∃ u ∈ p.units,
        (u.status = ChangeStatus.new ∨ u.status = ChangeStatus.removed ∨
         u.status = ChangeStatus.increased ∨ u.status = ChangeStatus.decreased) := by
  simp [hasUpdates, List.any_eq_true, List.mem_flatMap, isUpdateStatus_eq_true_iff]

/-- C10: under the scraper invariant that every current plan records
`totalUnits = |units|` (established by `mkPlanSnapshot`, the last
conjunct), the reported `totalUnits` of each plan equals the current
unit count, which is the number of non-`removed` records; whenever a
removed record is present, `totalUnits` is strictly below the length
of the reported record list. -/
theorem report_totalUnits_invariant (cur : Snapshot) (prev : Option Snapshot)
    (j : Nat) (hj : j < cur.plans.length)
    (htot : ∀ cp ∈ cur.plans, cp.totalUnits = cp.units.length) :
    ((comparePrices cur prev).plans.getD j defPlanReport).totalUnits =
      (cur.plans.getD j defPlan).units.length ∧
    ((comparePrices cur prev).plans.getD j defPlanReport).totalUnits =
      ((comparePrices cur prev).plans.getD j defPlanReport).units.countP
        (fun r => decide (¬ r.status = ChangeStatus.removed)) ∧
    (0 < ((comparePrices cur prev).plans.getD j defPlanReport).units.countP
        (fun r => decide (r.status = ChangeStatus.removed)) →
      ((comparePrices cur prev).plans.getD j defPlanReport).totalUnits <
        ((comparePrices cur prev).plans.getD j defPlanReport).units.length) ∧
    (∀ (name url : String) (us : List Unit),
      (mkPlanSnapshot name url us).totalUnits = us.length) := by
  have hmem : cur.plans.getD j defPlan ∈ cur.plans := by
    rw [List.getD_eq_getElem?_getD, List.getElem?_eq_getElem hj]
    exact List.getElem_mem hj
  have hcp := htot _ hmem
  cases prev with
  | none =>
      obtain ⟨h1, h2, h3⟩ := compareUnits_counts (cur.plans.getD j defPlan).units
        (prevUnitsFor [] (cur.plans.getD j defPlan).name)
      have hrp : (comparePrices cur none).plans.getD j defPlanReport =
          comparePlan [] (cur.plans.getD j defPlan) := by
        simp only [comparePrices]
        exact getD_map_of_lt hj defPlanReport defPlan
      rw [hrp]
      simp only [comparePlan]
      refine ⟨hcp, by rw [hcp, h1], ?_, fun name url us => rfl⟩
      intro hpos
      rw [h2] at hpos
      omega
  | some pd =>
      obtain ⟨h1, h2, h3⟩ := compareUnits_counts (cur.plans.getD j defPlan).units
        (prevUnitsFor pd.plans (cur.plans.getD j defPlan).name)
      have hrp : (comparePrices cur (some pd)).plans.getD j defPlanReport =
          comparePlan pd.plans (cur.plans.getD j defPlan) := by
        simp only [comparePrices]
        exact getD_map_of_lt hj defPlanReport defPlan
      rw [hrp]
      simp only [comparePlan]
      refine ⟨hcp, by rw [hcp, h1], ?_, fun name url us => rfl⟩
      intro hpos
      rw [h2] at hpos
      omega

/-- Witness for C10 at the concrete removed-unit scenario: the report
plan keeps `totalUnits = 0` while its record list has one removed
record. -/
theorem report_totalUnits_invariant_witness :
    (0 < snapCurEmpty.plans.length ∧
      ∀ cp ∈ snapCurEmpty.plans, cp.totalUnits = cp.units.length) ∧
    (((comparePrices snapCurEmpty (some snapPrevOne)).plans.getD 0
        defPlanReport).totalUnits =
      (snapCurEmpty.plans.getD 0 defPlan).units.length ∧
    ((comparePrices snapCurEmpty (some snapPrevOne)).plans.getD 0
        defPlanReport).totalUnits =
      ((comparePrices snapCurEmpty (some snapPrevOne)).plans.getD 0
          defPlanReport).units.countP
        (fun r => decide (¬ r.status = ChangeStatus.removed)) ∧
    (0 < ((comparePrices snapCurEmpty (some snapPrevOne)).plans.getD 0
          defPlanReport).units.countP
        (fun r => decide (r.status = ChangeStatus.removed)) →
      ((comparePrices snapCurEmpty (some snapPrevOne)).plans.getD 0
          defPlanReport).totalUnits <
        ((comparePrices snapCurEmpty (some snapPrevOne)).plans.getD 0
            defPlanReport).units.length) ∧
    (∀ (name url : String) (us : List Unit),
      (mkPlanSnapshot name url us).totalUnits = us.length)) :=
  ⟨⟨by decide, by decide⟩,
    report_totalUnits_invariant snapCurEmpty (some snapPrevOne) 0
      (by decide) (by decide)⟩

/-- C8 counterexample: a unit with the empty string as its (present)
floor gets the key `A-unknown`, not the `A-` that the claimed formula
`unitId + '-' + floor` prescribes: the floor component falls back on
any falsy value, not only on an absent one. -/
theorem unitKey_empty_floor_fallback :
    unitKey { unitNumber := some "A", floor := some "", price := 1500,
              availability := "x" } = "A-unknown" ∧
    unitKey { unitNumber := some "A", floor := some "", price := 1500,
              availability := "x" } ≠ "A-" := by
  decide

/-- The push loop of the pattern scan keeps the pushed unit numbers
pairwise distinct. -/
theorem pushScan_pairwise (l : List (List Char × Int)) (acc : List ScrapedUnit)
    (hacc : acc.Pairwise (fun a b => a.unitNumber ≠ b.unitNumber)) :
    (pushScan l acc).Pairwise (fun a b => a.unitNumber ≠ b.unitNumber) := by
  induction l generalizing acc with
  | nil => simpa [pushScan] using hacc
  | cons x t ih =>
      obtain ⟨id, p⟩ := x
      simp only [pushScan]
      split_ifs with hband hdup
      · exact ih acc hacc
      · refine ih _ ?_
        rw [List.pairwise_append]
        refine ⟨hacc, by simp, ?_⟩
        intro a ha b hb
        simp only [List.mem_singleton] at hb
        subst hb
        intro hEq
        apply hdup
        rw [List.any_eq_true]
        exact ⟨a, ha, by simp [hEq]⟩
      · exact ih acc hacc

/-- The push loop of the pattern scan only pushes prices inside the
inclusive plausible band. -/
theorem pushScan_band (l : List (List Char × Int)) (acc : List ScrapedUnit)
    (hacc : ∀ u ∈ acc, ∀ pr : Int, u.price = some pr → 1000 ≤ pr ∧ pr ≤ 20000) :
    ∀ u ∈ pushScan l acc, ∀ pr : Int,
      u.price = some pr → 1000 ≤ pr ∧ pr ≤ 20000 := by
  induction l generalizing acc with
  | nil => simpa [pushScan] using hacc
  | cons x t ih =>
      obtain ⟨id, p⟩ := x
      simp only [pushScan]
      split_ifs with hband hdup
      · exact ih acc hacc
      · refine ih _ ?_
        intro u hu pr hpr
        rcases List.mem_append.mp hu with h | h
        · exact hacc u h pr hpr
        · simp only [List.mem_singleton] at h
          subst h
          simp only [Option.some.injEq] at hpr
          omega
      · exact ih acc hacc

/-- Membership of the ascending insertion. -/
theorem mem_insertAsc {a x : Int} {l : List Int} :
    a ∈ insertAsc x l ↔ a = x ∨ a ∈ l := by
  induction l with
  | nil => simp [insertAsc]
  | cons y t ih =>
      simp only [insertAsc]
      split_ifs
      · simp [List.mem_cons]
      · simp only [List.mem_cons, ih]
        tauto

/-- Membership of the ascending sort. -/
theorem mem_sortAsc {a : Int} {l : List Int} : a ∈ sortAsc l ↔ a ∈ l := by
  induction l with
  | nil => simp [sortAsc]
  | cons y t ih =>
      simp only [sortAsc, List.foldr_cons] at ih ⊢
      rw [mem_insertAsc, ih, List.mem_cons]

/-- Every price of a synthesized harvest unit comes from the kept
price list. -/
theorem labelUnits_mem (i : Nat) (l : List Int) :
    ∀ u ∈ labelUnits i l, ∃ p ∈ l, u.price = some p := by
  induction l generalizing i with
  | nil => simp [labelUnits]
  | cons p t ih =>
      intro u hu
      simp only [labelUnits, List.mem_cons] at hu
      rcases hu with rfl | hu
      · exact ⟨p, by simp, rfl⟩
      · obtain ⟨q, hq, hq2⟩ := ih (i + 1) u hu
        exact ⟨q, by simp [hq], hq2⟩

/-- C8 amended: the composite key applies the falsy fallback `unknown`
to both components (unit number as well as floor, also on present but
empty strings); the key is the cross-run matching key (a current unit
is `new` exactly when no previous unit shares its key); and the
pattern-scan strategy deduplicates by the bare unit number, whose
output therefore has pairwise distinct unit numbers. -/
theorem unitKey_amended :
    (∀ (u : Unit) (id fl : String), u.unitNumber = some id → id ≠ "" →
      u.floor = some fl → fl ≠ "" → unitKey u = id ++ "-" ++ fl) ∧
    (∀ (u : Unit) (id : String), u.unitNumber = some id → id ≠ "" →
      u.floor = none → unitKey u = id ++ "-unknown") ∧
    (∀ (u : Unit) (fl : String), u.unitNumber = none →
      u.floor = some fl → fl ≠ "" → unitKey u = "unknown-" ++ fl) ∧
    (∀ (c p : List Unit) (i : Nat), i < c.length →
      (((compareUnits c p).getD i defRec).status = ChangeStatus.new ↔
        ∀ pu ∈ p, unitKey pu ≠ unitKey (c.getD i defUnit))) ∧
    (∀ s : String,
      (patternScan s).Pairwise (fun a b => a.unitNumber ≠ b.unitNumber)) := by
  refine ⟨?_, ?_, ?_, ?_, ?_⟩
  · intro u id fl h1 h2 h3 h4
    simp [unitKey, orUnknown, h1, h2, h3, h4]
  · intro u id h1 h2 h3
    simp only [unitKey, orUnknown, h1, h2, h3, if_neg h2]
    rw [String.append_assoc]
    congr 1
  · intro u fl h1 h2 h3
    simp [unitKey, orUnknown, h1, h2, h3]
  · intro c p i hi
    rw [compareUnits_getD_lt hi, classifyUnit_new_iff]
    exact lookupBy_eq_none
  · intro s
    exact pushScan_pairwise _ [] (by simp)

/-- Witness for the amended C8: concrete key shapes, a concrete `new`
classification against an empty previous list, and the concrete
deduplicated pattern scan. -/
theorem unitKey_amended_witness :
    unitKey uCur = "201-3" ++ "-" ++ "2" ∧
    (((compareUnits [uCur] []).getD 0 defRec).status = ChangeStatus.new ↔
      ∀ pu ∈ ([] : List Unit), unitKey pu ≠ unitKey (([uCur] : List Unit).getD 0 defUnit)) :=
  ⟨unitKey_amended.1 uCur "201-3" "2" rfl (by decide) rfl (by decide),
    unitKey_amended.2.2.2.1 [uCur] [] 0 (by decide)⟩

/-- C6 counterexample: a page showing exactly the boundary price 1000
yields no unit from the price-harvest strategy, although 1000 lies in
the inclusive band `[1000, 20000]` (and passes the inclusive filter of
the structured-element strategy): the harvest band is strict. -/
theorem priceHarvest_boundary_excluded :
    priceHarvest "Rent: $1,000 now" = [] ∧
    strictBandB (some 1000) = false ∧
    inclBandB (some 1000) = true := by
  decide

/-- C6 amended: every numeric price in any strategy output lies in
`[1000, 20000]`; the structured-element and pattern-scan filters accept
exactly the inclusive band `[1000, 20000]`, while the price-harvest
filter is strict, accepting exactly `(1000, 20000)`, so the boundary
prices 1000 and 20000 are discarded there. -/
theorem strategies_band_amended :
    (∀ (ts : List String), ∀ u ∈ structuredExtract ts, ∀ pr : Int,
      u.price = some pr → 1000 ≤ pr ∧ pr ≤ 20000) ∧
    (∀ s : String, ∀ u ∈ patternScan s, ∀ pr : Int,
      u.price = some pr → 1000 ≤ pr ∧ pr ≤ 20000) ∧
    (∀ s : String, ∀ u ∈ priceHarvest s, ∀ pr : Int,
      u.price = some pr → 1000 < pr ∧ pr < 20000) ∧
    (∀ pr : Int, inclBandB (some pr) = true ↔ (1000 ≤ pr ∧ pr ≤ 20000)) ∧
    (∀ pr : Int, strictBandB (some pr) = true ↔ (1000 < pr ∧ pr < 20000)) := by
  have hincl : ∀ pr : Int, inclBandB (some pr) = true ↔ (1000 ≤ pr ∧ pr ≤ 20000) := by
    intro pr
    simp only [inclBandB, jsLtB, jsGtB, Bool.not_eq_true', Bool.or_eq_false_iff,
      decide_eq_false_iff_not]
    omega
  have hstrict : ∀ pr : Int, strictBandB (some pr) = true ↔
      (1000 < pr ∧ pr < 20000) := by
    intro pr
    simp [strictBandB, jsLtB, jsGtB]
  refine ⟨?_, ?_, ?_, hincl, hstrict⟩
  · intro ts u hu pr hpr
    rcases List.mem_filterMap.mp hu with ⟨t, _, hsome⟩
    unfold unitFromContainer at hsome
    cases hfi : findUnitId t.data with
    | none => rw [hfi] at hsome; cases hsome
    | some id =>
        rw [hfi] at hsome
        cases hfp : findPriceMo t.data with
        | none => rw [hfp] at hsome; dsimp only at hsome; cases hsome
        | some price =>
            rw [hfp] at hsome
            dsimp only at hsome
            split_ifs at hsome with hband
            cases hsome
            simp only at hpr
            rw [hpr] at hband
            exact (hincl pr).mp hband
  · intro s u hu pr hpr
    exact pushScan_band _ [] (by simp) u hu pr hpr
  · intro s u hu pr hpr
    unfold priceHarvest at hu
    obtain ⟨p, hp, hup⟩ := labelUnits_mem 0 _ u hu
    rw [mem_sortAsc] at hp
    rcases List.mem_filterMap.mp hp with ⟨run, _, hkeep⟩
    cases hpf : priceFromRun run with
    | none => rw [hpf] at hkeep; cases hkeep
    | some q =>
        rw [hpf] at hkeep
        dsimp only at hkeep
        split_ifs at hkeep with hq
        cases hkeep
        rw [hup] at hpr
        cases hpr
        exact hq

/-- Witness for the amended C6: the pattern scan extracts unit
`350-227` at price 5411 from a concrete page text (the scenario of the
specification), and that price lies in the inclusive band. -/
theorem strategies_band_amended_witness :
    ({ unitNumber := some "350-227", floor := some "3", price := some 5411,
       availability := "Call for Details" } : ScrapedUnit) ∈
        patternScan "Unit 350-227 $5,411 /mo" ∧
    (1000 ≤ (5411 : Int) ∧ (5411 : Int) ≤ 20000) :=
  ⟨by decide,
    strategies_band_amended.2.1 "Unit 350-227 $5,411 /mo"
      { unitNumber := some "350-227", floor := some "3", price := some 5411,
        availability := "Call for Details" } (by decide) 5411 rfl⟩

/-- Soundness of the dollar-run scanner: a returned run is nonempty
and holds only digits and commas. -/
theorem scanDollarRun_sound : ∀ {l run : List Char},
    scanDollarRun l = some run → run ≠ [] ∧ ∀ c ∈ run, c.isDigit ∨ c = ',' := by
  intro l
  induction l with
  | nil => intro run h; cases h
  | cons c t ih =>
      intro run h
      simp only [scanDollarRun] at h
      split_ifs at h with hc he
      · exact ih h
      · cases h
        refine ⟨by simpa using he, ?_⟩
        intro x hx
        have := List.mem_takeWhile_imp hx
        simpa using this
      · exact ih h

/-- C7 counterexample: on the input `$,` the scanner matches the
pattern `\$[\d,]+` (a separator with no digit group), strips to the
empty string and parses it, returning NaN: neither an integer nor
absent. -/
theorem extractPrice_nan_on_separator_only :
    extractPrice (some "$,") = PriceResult.nanVal ∧
    isNumericOrAbsent (extractPrice (some "$,")) = false := by
  decide

/-- C7 amended: `extractPrice` is a total function whose result is a
nonnegative integer or absent in every case except one: when the first
`\$[\d,]+` match consists of separators only (no digit), the result is
NaN. -/
theorem extractPrice_characterization : ∀ s : Option String,
    extractPrice s = PriceResult.nullVal ∨
    (∃ n : Int, 0 ≤ n ∧ extractPrice s = PriceResult.intVal n) ∨
    (extractPrice s = PriceResult.nanVal ∧
      ∃ str run, s = some str ∧ scanDollarRun str.data = some run ∧
        run ≠ [] ∧ ∀ c ∈ run, c = ',') := by
  intro s
  cases s with
  | none => exact Or.inl rfl
  | some str =>
      unfold extractPrice
      dsimp only
      split_ifs with hemp
      · exact Or.inl rfl
      cases hscan : scanDollarRun str.data with
      | none => exact Or.inl rfl
      | some run =>
          obtain ⟨hne, hchars⟩ := scanDollarRun_sound hscan
          by_cases hds : (run.filter (fun c => c ≠ ',')).isEmpty
          · refine Or.inr (Or.inr ⟨by simp only [if_pos hds], str, run, rfl, hscan, hne, ?_⟩)
            intro c hc
            by_contra hcc
            have hmem : c ∈ run.filter (fun x => x ≠ ',') :=
              List.mem_filter.mpr ⟨hc, by simpa using hcc⟩
            rw [List.isEmpty_iff.mp hds] at hmem
            cases hmem
          · refine Or.inr (Or.inl
              ⟨digitsVal (run.filter (fun c => c ≠ ',')), ?_, by simp only [if_neg hds]⟩)
            unfold digitsVal
            exact Int.natCast_nonneg _

end FlatsRent
